import Mathlib

/-!
Verification of the chat-streaming core of the urmston_town_web_agent
repository: the SSE frame splitters, the JSON event decoding, the
conversation-state reducer (`chatReducer`) and the stream session
controller of the chat page, shallowly embedded over `List Char`
(JavaScript strings) and plain Lean structures.

Two variants of the stream client exist in the sources:
* `processStreamChunk` / `handleSubmit` (the ChatInterface component,
  src/unnamed/part_000), and
* the inline splitter loop and reducer of `handleSendMessage`
  (the ChatPage component, src/unnamed/part_001).
Both are embedded below, each under a name derived from its source.
-/

/-- JavaScript strings are modelled as lists of characters. -/
abbrev Str := List Char

/-- Whitespace recognised by `String.prototype.trim` as far as the
characters occurring in the SSE protocol are concerned
(space, tab, line feed, carriage return). -/
def isWS (c : Char) : Bool :=
  c == ' ' || c == '\t' || c == '\n' || c == '\r'

/-- Left part of `String.prototype.trim`. -/
def trimL (s : Str) : Str := s.dropWhile isWS

/-- Right part of `String.prototype.trim`. -/
def trimR (s : Str) : Str := (s.reverse.dropWhile isWS).reverse

/-- `String.prototype.trim`: drop whitespace from both ends. -/
def trimS (s : Str) : Str := trimL (trimR s)

/-- `pat.isPrefixOf s` as an executable Boolean: `leadsWith pat s` is
true iff the string `s` starts with the pattern `pat`
(`String.prototype.startsWith`). -/
def leadsWith : Str → Str → Bool
  | [], _ => true
  | _ :: _, [] => false
  | a :: as, b :: bs => a == b && leadsWith as bs

/-- `String.prototype.indexOf` for a substring pattern, returning
`none` where JavaScript returns `-1`. -/
def indexOfSub (p : Str) : Str → Option Nat
  | [] => if leadsWith p [] then some 0 else none
  | s@(_ :: t) =>
    if leadsWith p s then some 0
    else (indexOfSub p t).map (fun n => n + 1)

/-- The `"\n\n"` SSE frame delimiter. -/
def nlDelim : Str := ['\n', '\n']

/-- The `"\r\n\r\n"` SSE frame delimiter. -/
def crlfDelim : Str := ['\r', '\n', '\r', '\n']

/-- Delimiter search of `processStreamChunk` (part_000, lines 83-106):
the first occurrence of either `"\n\n"` or `"\r\n\r\n"`; when both are
found the one at the lower index wins.  Returns the boundary index and
the delimiter length. -/
def boundaryOf (s : Str) : Option (Nat × Nat) :=
  match indexOfSub nlDelim s, indexOfSub crlfDelim s with
  | some ni, some ci => if ni < ci then some (ni, 2) else some (ci, 4)
  | some ni, none => some (ni, 2)
  | none, some ci => some (ci, 4)
  | none, none => none

/-- Delimiter search of the inline loop of `handleSendMessage`
(part_001, line 325): `fetchBuffer.indexOf('\n\n')` is consulted first
and wins whenever it hits, regardless of position; only when there is
no `"\n\n"` at all is `"\r\n\r\n"` looked for. -/
def boundaryOf001 (s : Str) : Option Nat :=
  match indexOfSub nlDelim s with
  | some i => some i
  | none => indexOfSub crlfDelim s

/-- Fuelled body of the `processStreamChunk` splitter loop.  The fuel
only bounds the number of loop iterations; it is instantiated with the
buffer length, which the loop never reaches since every iteration
consumes at least a two-character delimiter. -/
def processBlocksF : Nat → Str → List Str × Str
  | 0, s => ([], s)
  | fuel + 1, s =>
    match boundaryOf s with
    | none => ([], s)
    | some (i, L) =>
      let block := trimS (s.take i)
      let r := processBlocksF fuel (s.drop (i + L))
      (if block = [] then r.1 else block :: r.1, r.2)

/-- The splitter loop of `processStreamChunk` (part_000, lines 81-112)
restricted to frame extraction: repeatedly cut the buffer at the
earliest delimiter, trim the block, drop blocks that trim to nothing,
and return the extracted blocks together with the unterminated
remainder. -/
def processBlocks (s : Str) : List Str × Str :=
  processBlocksF s.length s

/-- Feeding a sequence of chunks through `processStreamChunk` the way
`handleSubmit` does (part_000, lines 278-302): the remainder returned
by each call is prepended to the next chunk. -/
def feedChunks (chunks : List Str) : List Str × Str :=
  chunks.foldl
    (fun acc c =>
      let r := processBlocks (acc.2 ++ c)
      (acc.1 ++ r.1, r.2))
    ([], [])

/-- One iteration of the `processStreamChunk` splitter loop, exposing
the boundary index, the delimiter length, the trimmed block and the
rest of the buffer. -/
def splitterStep (s : Str) : Option (Nat × Nat × Str × Str) :=
  match boundaryOf s with
  | none => none
  | some (i, L) => some (i, L, trimS (s.take i), s.drop (i + L))

/-- Fuelled body of the `handleSendMessage` splitter loop; the fuel is
instantiated with the buffer length, which the loop never reaches. -/
def splitFrames001F : Nat → Str → List Str × Str
  | 0, s => ([], s)
  | fuel + 1, s =>
    match boundaryOf001 s with
    | none => ([], s)
    | some i =>
      let L := if leadsWith crlfDelim (s.drop i) then 4 else 2
      let block := trimS (s.take i)
      let r := splitFrames001F fuel (s.drop (i + L))
      (block :: r.1, r.2)

/-- The splitter loop of `handleSendMessage` (part_001, lines 324-328):
cut at `indexOf('\n\n')` whenever that hits, otherwise at
`indexOf('\r\n\r\n')`; the delimiter length is decided by whether the
buffer at the boundary starts with `"\r\n\r\n"`.  Returns the trimmed
`rawEventData` blocks and the unterminated remainder. -/
def splitFrames001 (s : Str) : List Str × Str :=
  splitFrames001F s.length s

/-- One iteration of the `handleSendMessage` splitter loop (part_001,
lines 325-328), exposing boundary index, delimiter length, trimmed
block and rest. -/
def splitterStep001 (s : Str) : Option (Nat × Nat × Str × Str) :=
  match boundaryOf001 s with
  | none => none
  | some i =>
    let L := if leadsWith crlfDelim (s.drop i) then 4 else 2
    some (i, L, trimS (s.take i), s.drop (i + L))

/-- Feeding chunks through the `handleSendMessage` loop (part_001,
lines 314-328): each decoded chunk is appended to `fetchBuffer` and the
inner while loop drains every complete frame. -/
def feedChunks001 (chunks : List Str) : List Str × Str :=
  chunks.foldl
    (fun acc c =>
      let r := splitFrames001 (acc.2 ++ c)
      (acc.1 ++ r.1, r.2))
    ([], [])

/-- The character `\x7b` (left curly brace). -/
def lbrace : Char := Char.ofNat 123

/-- The character `\x7d` (right curly brace). -/
def rbrace : Char := Char.ofNat 125

/-- Whitespace accepted by `JSON.parse` between tokens. -/
def isJsonWs (c : Char) : Bool :=
  c == ' ' || c == '\t' || c == '\n' || c == '\r'

def skipWs (s : Str) : Str := s.dropWhile isJsonWs

/-- JSON values, as produced by `JSON.parse` on the protocol payloads
(numbers restricted to the integer fragment, which is all the event
payloads use). -/
inductive Jsonv where
  | jnull : Jsonv
  | jbool : Bool → Jsonv
  | jnum : Int → Jsonv
  | jstr : Str → Jsonv
  | jarr : List Jsonv → Jsonv
  | jobj : List (Str × Jsonv) → Jsonv

def hexVal (c : Char) : Option Nat :=
  if c.isDigit then some (c.toNat - 48)
  else if 'a' ≤ c ∧ c ≤ 'f' then some (c.toNat - 87)
  else if 'A' ≤ c ∧ c ≤ 'F' then some (c.toNat - 55)
  else none

/-- Body of a JSON string literal, after the opening quote: returns the
unescaped contents and the input following the closing quote. -/
def parseStringBody : Nat → Str → Option (Str × Str)
  | 0, _ => none
  | _ + 1, [] => none
  | fuel + 1, c :: rest =>
    if c == '"' then some ([], rest)
    else if c == '\\' then
      match rest with
      | [] => none
      | e :: rest2 =>
        if e == '"' then (parseStringBody fuel rest2).map (fun p => ('"' :: p.1, p.2))
        else if e == '\\' then (parseStringBody fuel rest2).map (fun p => ('\\' :: p.1, p.2))
        else if e == '/' then (parseStringBody fuel rest2).map (fun p => ('/' :: p.1, p.2))
        else if e == 'b' then (parseStringBody fuel rest2).map (fun p => (Char.ofNat 8 :: p.1, p.2))
        else if e == 'f' then (parseStringBody fuel rest2).map (fun p => (Char.ofNat 12 :: p.1, p.2))
        else if e == 'n' then (parseStringBody fuel rest2).map (fun p => ('\n' :: p.1, p.2))
        else if e == 'r' then (parseStringBody fuel rest2).map (fun p => ('\r' :: p.1, p.2))
        else if e == 't' then (parseStringBody fuel rest2).map (fun p => ('\t' :: p.1, p.2))
        else if e == 'u' then
          match rest2 with
          | h1 :: h2 :: h3 :: h4 :: rest3 =>
            match hexVal h1, hexVal h2, hexVal h3, hexVal h4 with
            | some a, some b, some c2, some d =>
              (parseStringBody fuel rest3).map
                (fun p => (Char.ofNat (a * 4096 + b * 256 + c2 * 16 + d) :: p.1, p.2))
            | _, _, _, _ => none
          | _ => none
        else none
    else (parseStringBody fuel rest).map (fun p => (c :: p.1, p.2))

def digitsAcc : Nat → Str → Nat × Str
  | acc, [] => (acc, [])
  | acc, c :: rest =>
    if c.isDigit then digitsAcc (acc * 10 + (c.toNat - 48)) rest
    else (acc, c :: rest)

/-- Integer fragment of JSON numbers (the only numbers the protocol
payloads relevant to the verified properties carry). -/
def parseNumber : Str → Option (Jsonv × Str)
  | [] => none
  | '-' :: rest =>
    match rest with
    | [] => none
    | c :: _ =>
      if c.isDigit then
        let p := digitsAcc 0 rest
        some (Jsonv.jnum (-(p.1 : Int)), p.2)
      else none
  | c :: rest =>
    if c.isDigit then
      let p := digitsAcc 0 (c :: rest)
      some (Jsonv.jnum (p.1 : Int), p.2)
    else none

mutual

/-- Recursive-descent JSON value (fuel bounds the nesting work; the top
entry point supplies one unit per input character, ample for any input
with matched brackets; exhaustion yields `none`, a parse failure). -/
def parseValue : Nat → Str → Option (Jsonv × Str)
  | 0, _ => none
  | fuel + 1, cs =>
    match skipWs cs with
    | [] => none
    | c :: rest =>
      if c == '"' then
        (parseStringBody (rest.length + 1) rest).map (fun p => (Jsonv.jstr p.1, p.2))
      else if c == lbrace then
        match skipWs rest with
        | d :: rest2 =>
          if d == rbrace then some (Jsonv.jobj [], rest2)
          else (parseMembers fuel (skipWs rest)).map (fun p => (Jsonv.jobj p.1, p.2))
        | [] => none
      else if c == '[' then
        match skipWs rest with
        | d :: rest2 =>
          if d == ']' then some (Jsonv.jarr [], rest2)
          else (parseElems fuel (skipWs rest)).map (fun p => (Jsonv.jarr p.1, p.2))
        | [] => none
      else if leadsWith ("true".toList) (c :: rest) then
        some (Jsonv.jbool true, (c :: rest).drop 4)
      else if leadsWith ("false".toList) (c :: rest) then
        some (Jsonv.jbool false, (c :: rest).drop 5)
      else if leadsWith ("null".toList) (c :: rest) then
        some (Jsonv.jnull, (c :: rest).drop 4)
      else parseNumber (c :: rest)

def parseMembers : Nat → Str → Option (List (Str × Jsonv) × Str)
  | 0, _ => none
  | fuel + 1, cs =>
    match skipWs cs with
    | [] => none
    | c :: rest =>
      if c == '"' then
        match parseStringBody (rest.length + 1) rest with
        | none => none
        | some (key, rest2) =>
          match skipWs rest2 with
          | ':' :: rest3 =>
            match parseValue fuel rest3 with
            | none => none
            | some (v, rest4) =>
              match skipWs rest4 with
              | ',' :: rest5 =>
                (parseMembers fuel rest5).map (fun p => ((key, v) :: p.1, p.2))
              | d :: rest5 =>
                if d == rbrace then some ([(key, v)], rest5) else none
              | [] => none
          | _ => none
      else none

def parseElems : Nat → Str → Option (List Jsonv × Str)
  | 0, _ => none
  | fuel + 1, cs =>
    match parseValue fuel cs with
    | none => none
    | some (v, rest) =>
      match skipWs rest with
      | ',' :: rest2 => (parseElems fuel rest2).map (fun p => (v :: p.1, p.2))
      | d :: rest2 => if d == ']' then some ([v], rest2) else none
      | [] => none

end

/-- `JSON.parse`: a complete value with only whitespace around it. -/
def jsonParse (s : Str) : Option Jsonv :=
  match parseValue (s.length + 1) s with
  | some (v, rest) => if skipWs rest = [] then some v else none
  | none => none

/-- First-match association lookup on parsed JSON object fields
(used on the reversed field list so that duplicate keys resolve to the
last occurrence, as in `JSON.parse`). -/
def jGet (fields : List (Str × Jsonv)) (k : Str) : Option Jsonv :=
  match fields with
  | [] => none
  | p :: rest => if p.1 = k then some p.2 else jGet rest k

/-- Property access `obj[k]` on a parsed JSON object (`none` where
JavaScript yields `undefined`; with duplicate keys the last wins, as in
`JSON.parse`). -/
def getField (v : Jsonv) (k : Str) : Option Jsonv :=
  match v with
  | Jsonv.jobj fields => jGet fields.reverse k
  | _ => none

/-- Property access for the string-valued protocol fields. -/
def getStrField (v : Jsonv) (k : Str) : Option String :=
  match getField v k with
  | some (Jsonv.jstr s) => some (String.mk s)
  | _ => none

/-- JavaScript truthiness of a JSON value. -/
def truthy : Jsonv → Bool
  | Jsonv.jnull => false
  | Jsonv.jbool b => b
  | Jsonv.jnum n => decide (n ≠ 0)
  | Jsonv.jstr s => decide (s ≠ [])
  | Jsonv.jarr _ => true
  | Jsonv.jobj _ => true

/-- `obj.k || false`, as a Boolean (the protocol sends a Boolean when
the field is present at all). -/
def truthyField (v : Jsonv) (k : Str) : Bool :=
  match getField v k with
  | some x => truthy x
  | none => false

/-- `obj.k || null` for the string-valued hand-off field. -/
def strFieldOrNull (v : Jsonv) (k : Str) : Option String :=
  match getStrField v k with
  | some s => if s = "" then none else some s
  | none => none

/-- Message role. -/
inductive Role where
  | user : Role
  | assistant : Role
deriving DecidableEq, Repr

/-- The `Message` interface of the chat page (part_001, lines 11-17);
the optional fields are `Option`-valued exactly where the interface
marks them optional. -/
structure Message where
  id : String
  role : Role
  content : String
  agentName : Option String := none
  isLoading : Option Bool := none
deriving DecidableEq, Repr

/-- The `ChatState` interface (part_001, lines 26-32); the JavaScript
object keyed by message id is modelled as an association list with
JavaScript object-update semantics (`objSet`). -/
structure ChatState where
  messages : List (String × Message)
  messageOrder : List String
  isLoading : Bool
  loadingMessageId : Option String
  currentAssistantMessageId : Option String
deriving DecidableEq, Repr

/-- `initialState` (part_001, lines 44-50). -/
def initialState : ChatState :=
  { messages := []
    messageOrder := []
    isLoading := false
    loadingMessageId := none
    currentAssistantMessageId := none }

/-- Property access `m[k]` on the JavaScript object of messages
(`undefined` rendered as `none`). -/
def objGet (m : List (String × Message)) (k : String) : Option Message :=
  match m with
  | [] => none
  | p :: rest => if p.1 = k then some p.2 else objGet rest k

/-- `{ ...m, [k]: v }` on a JavaScript object: an existing key keeps
its position and gets the new value; a new key is appended. -/
def objSet (m : List (String × Message)) (k : String) (v : Message) :
    List (String × Message) :=
  if (objGet m k).isSome then m.map (fun p => if p.1 = k then (k, v) else p)
  else m ++ [(k, v)]

/-- The `ChatAction` union (part_001, lines 34-42).  `SET_ERROR`
carries an extra `errorId` field modelling the id the reducer mints
from `Date.now()` (an impure call in the source, made an explicit
input here). -/
inductive ChatAction where
  | START_ASSISTANT_MESSAGE (id : String) (agentName : Option String)
  | APPEND_DELTA (id : String) (delta : String)
  | UPDATE_ASSISTANT_JSON_CONTENT (id : String) (agentResponseText : String)
      (overallTaskComplete : Bool) (passOffToAgent : Option String)
  | UPDATE_AGENT_NAME (id : String) (agentName : String)
  | COMPLETE_ASSISTANT_MESSAGE (id : String)
  | ADD_USER_MESSAGE (payload : Message)
  | SET_ERROR (errorContent : String) (errorId : String)
  | RESET_CHAT
deriving DecidableEq, Repr

/-- `chatReducer` (part_001, lines 52-161), transition for transition.
The `||` guards of the source are rendered as nested early returns with
the same result. -/
def chatReducer (state : ChatState) (action : ChatAction) : ChatState :=
  match action with
  | ChatAction.ADD_USER_MESSAGE payload =>
    { state with
      isLoading := true
      messages := objSet state.messages payload.id payload
      messageOrder := state.messageOrder ++ [payload.id] }
  | ChatAction.START_ASSISTANT_MESSAGE id agentName =>
    let newMessage : Message :=
      { id := id
        role := Role.assistant
        content := ""
        agentName := some (match agentName with
          | some a => if a = "" then "Assistant" else a
          | none => "Assistant")
        isLoading := some true }
    { state with
      currentAssistantMessageId := some id
      loadingMessageId := some id
      messages := objSet state.messages id newMessage
      messageOrder := state.messageOrder ++ [id] }
  | ChatAction.APPEND_DELTA id delta =>
    match objGet state.messages id with
    | none => state
    | some msgToAppend =>
      if state.loadingMessageId ≠ some id then state
      else
        { state with
          messages := objSet state.messages id
            { msgToAppend with content := msgToAppend.content ++ delta } }
  | ChatAction.UPDATE_ASSISTANT_JSON_CONTENT id agentResponseText _ _ =>
    match objGet state.messages id with
    | none => state
    | some msgToUpdate =>
      { state with
        messages := objSet state.messages id
          { msgToUpdate with content := agentResponseText } }
  | ChatAction.UPDATE_AGENT_NAME id agentName =>
    match objGet state.messages id with
    | none => state
    | some msgToUpdateAgent =>
      if state.loadingMessageId ≠ some id then state
      else
        { state with
          messages := objSet state.messages id
            { msgToUpdateAgent with agentName := some agentName } }
  | ChatAction.COMPLETE_ASSISTANT_MESSAGE id =>
    if state.loadingMessageId ≠ some id ∧ state.currentAssistantMessageId ≠ some id then
      state
    else
      let updatedMessages :=
        match objGet state.messages id with
        | some completedMsg =>
          objSet state.messages id { completedMsg with isLoading := some false }
        | none => state.messages
      { state with
        messages := updatedMessages
        isLoading := false
        loadingMessageId := none
        currentAssistantMessageId := none }
  | ChatAction.SET_ERROR errorContent errorId =>
    let errorMessage : Message :=
      { id := errorId
        role := Role.assistant
        content := "Error: " ++ errorContent
        agentName := some "System Error"
        isLoading := none }
    { state with
      isLoading := false
      loadingMessageId := none
      currentAssistantMessageId := none
      messages := objSet state.messages errorId errorMessage
      messageOrder := state.messageOrder ++ [errorId] }
  | ChatAction.RESET_CHAT => initialState

/-- The id appended to `messageOrder` by an action, if any. -/
def appendOf : ChatAction → Option String
  | ChatAction.ADD_USER_MESSAGE payload => some payload.id
  | ChatAction.START_ASSISTANT_MESSAGE id _ => some id
  | ChatAction.SET_ERROR _ errorId => some errorId
  | _ => none

/-- Local state of the `handleSendMessage` stream loop (part_001):
`activeMessageId` starts as the empty string (JavaScript falsy),
`jsonBuffer` is `currentAssistantJsonBuffer.current`, and `halted`
records that the error branch executed `break`. -/
structure Ctrl where
  chat : ChatState
  activeMessageId : String
  jsonBuffer : Str
  halted : Bool
deriving DecidableEq, Repr

/-- Event dispatch of `handleSendMessage` (part_001, lines 336-432).
`errId` models the `Date.now()`-minted id a `SET_ERROR` dispatch would
use.  Field accesses that would throw on a missing `data` object are
rendered as no-ops, matching the enclosing `try`/`catch` which drops
the frame.  The `code_validation_result` branch (lines 394-427) only
rewrites the active message from side-channel data and is not needed
for the properties verified here. -/
def processEvent (ctrl : Ctrl) (errId : String) (parsedEvent : Jsonv) : Ctrl :=
  match getStrField parsedEvent ("event_type".toList) with
  | none => ctrl
  | some eventType =>
    if eventType = "START_ASSISTANT_MESSAGE" then
      match getField parsedEvent ("data".toList) with
      | none => ctrl
      | some d =>
        match getStrField d ("id".toList) with
        | none => ctrl
        | some mid =>
          let agentName :=
            match getStrField d ("agent_name".toList) with
            | some a => if a = "" then "Assistant" else a
            | none => "Assistant"
          { ctrl with
            activeMessageId := mid
            jsonBuffer := []
            chat := chatReducer ctrl.chat
              (ChatAction.START_ASSISTANT_MESSAGE mid (some agentName)) }
    else if eventType = "RawResponsesStreamEvent" then
      match getField parsedEvent ("data".toList) with
      | none => ctrl
      | some d =>
        match getStrField d ("delta".toList) with
        | none => ctrl
        | some delta =>
          if delta = "" then ctrl
          else if ctrl.activeMessageId = "" then ctrl
          else
            let buf := ctrl.jsonBuffer ++ delta.toList
            let ctrl1 := { ctrl with jsonBuffer := buf }
            match jsonParse buf with
            | none => ctrl1
            | some parsedBuffer =>
              match getStrField parsedBuffer ("agent_response_text".toList) with
              | none => ctrl1
              | some t =>
                { ctrl1 with
                  chat := chatReducer ctrl1.chat
                    (ChatAction.UPDATE_ASSISTANT_JSON_CONTENT ctrl.activeMessageId t
                      (truthyField parsedBuffer ("overall_task_complete".toList))
                      (strFieldOrNull parsedBuffer ("pass_off_to_agent".toList))) }
    else if eventType = "AgentUpdatedStreamEvent" then
      match getField parsedEvent ("data".toList) with
      | none => ctrl
      | some d =>
        match getStrField d ("agent_name".toList) with
        | none => ctrl
        | some agentName =>
          if agentName = "" then ctrl
          else if ctrl.activeMessageId = "" then ctrl
          else
            { ctrl with
              chat := chatReducer ctrl.chat
                (ChatAction.UPDATE_AGENT_NAME ctrl.activeMessageId agentName) }
    else if eventType = "COMPLETE_ASSISTANT_MESSAGE" then
      match getField parsedEvent ("data".toList) with
      | none => ctrl
      | some d =>
        match getStrField d ("id".toList) with
        | none => ctrl
        | some mid =>
          if ctrl.activeMessageId ≠ "" ∧ ctrl.activeMessageId = mid then
            let ctrl1 :=
              match jsonParse ctrl.jsonBuffer with
              | none => ctrl
              | some structuredResp =>
                match getStrField structuredResp ("agent_response_text".toList) with
                | none => ctrl
                | some finalContent =>
                  { ctrl with
                    chat := chatReducer ctrl.chat
                      (ChatAction.UPDATE_ASSISTANT_JSON_CONTENT ctrl.activeMessageId
                        finalContent
                        (truthyField structuredResp ("overall_task_complete".toList))
                        (strFieldOrNull structuredResp ("pass_off_to_agent".toList))) }
            { ctrl1 with
              chat := chatReducer ctrl1.chat (ChatAction.COMPLETE_ASSISTANT_MESSAGE mid)
              jsonBuffer := []
              activeMessageId := "" }
          else ctrl
    else if eventType = "ServerError" ∨ eventType = "AgentErrorEvent" then
      let errorContent :=
        match getField parsedEvent ("data".toList) with
        | some d =>
          match getStrField d ("error".toList) with
          | some e => if e = "" then "Unknown backend error" else e
          | none => "Unknown backend error"
        | none => "Unknown backend error"
      let ctrl1 :=
        { ctrl with chat := chatReducer ctrl.chat (ChatAction.SET_ERROR errorContent errId) }
      let ctrl2 :=
        if ctrl1.activeMessageId ≠ "" then
          { ctrl1 with
            chat := chatReducer ctrl1.chat
              (ChatAction.COMPLETE_ASSISTANT_MESSAGE ctrl1.activeMessageId) }
        else ctrl1
      { ctrl2 with halted := true }
    else ctrl

/-- Frame handling of `handleSendMessage` (part_001, lines 330-442):
only frames whose trimmed text starts with `data: ` are considered; the
value is trimmed, empty values and the `[DONE]` sentinel (any casing)
are silently skipped; everything else is fed to `JSON.parse`, a failure
being logged and dropped. -/
def processFrame (ctrl : Ctrl) (errId : String) (rawEventData : Str) : Ctrl :=
  if leadsWith ("data: ".toList) rawEventData then
    let jsonDataString := trimS (rawEventData.drop 5)
    if jsonDataString = [] then ctrl
    else if List.map Char.toUpper jsonDataString = "[DONE]".toList then ctrl
    else
      match jsonParse jsonDataString with
      | some parsedEvent => processEvent ctrl errId parsedEvent
      | none => ctrl
  else ctrl

/-- Running the frames split out of one chunk: the error branch breaks
out of the frame loop, so frames after a `halted` controller are
skipped.  Each frame is paired with the error id a `SET_ERROR`
dispatched while processing it would mint. -/
def processFrames (ctrl : Ctrl) (frames : List (String × Str)) : Ctrl :=
  frames.foldl (fun c p => if c.halted then c else processFrame c p.1 p.2) ctrl

/-- Entry guard and user-message dispatch of `handleSendMessage`
(part_001, lines 268-276): a submit while `isLoading` returns at once;
otherwise the user message is added (and the request then starts — the
Boolean reports whether it does). -/
def handleSendMessage_submit (s : ChatState) (userMsgId userInput : String) :
    ChatState × Bool :=
  if s.isLoading then (s, false)
  else
    (chatReducer s (ChatAction.ADD_USER_MESSAGE
      { id := userMsgId, role := Role.user, content := userInput }), true)

/-- Entry guard of `handleSubmit` (part_000, line 218):
`if (!inputValue.trim() || isLoading) return;` — the submission (and
with it the `abortControllerRef.current?.abort()` that follows)
proceeds only when this is `true`. -/
def handleSubmit_proceeds (inputValue : Str) (isLoading : Bool) : Bool :=
  !((trimS inputValue).isEmpty || isLoading)

/-- The `done` branch of the `handleSendMessage` read loop (part_001,
lines 316-321): the active message, if any, is force-completed; the
`fetchBuffer` remainder is not consulted at all. -/
def handleSendMessage_onDone (ctrl : Ctrl) : Ctrl :=
  if ctrl.activeMessageId ≠ "" then
    { ctrl with
      chat := chatReducer ctrl.chat
        (ChatAction.COMPLETE_ASSISTANT_MESSAGE ctrl.activeMessageId) }
  else ctrl

/-- The `done` branch of the `handleSubmit` read loop (part_000, lines
290-300), at the frame level: a remainder with non-empty trim is fed
once more through the splitter with a synthetic `"\n\n"` appended; the
returned list is the frames this flush processes. -/
def handleSubmitDoneFrames (buffer : Str) : List Str :=
  if trimS buffer = [] then [] else (processBlocks (buffer ++ nlDelim)).1

/-- The user message of the worked scenario ("show u9s players"). -/
def userMsg0 : Message :=
  { id := "user-1", role := Role.user, content := "show u9s players" }

/-- State right after submitting the user message. -/
def s0 : ChatState := chatReducer initialState (ChatAction.ADD_USER_MESSAGE userMsg0)

/-- Controller state at the start of the stream read loop. -/
def ctrl0 : Ctrl := { chat := s0, activeMessageId := "", jsonBuffer := [], halted := false }

def f1 : Str :=
  "data: \x7b\"event_type\":\"START_ASSISTANT_MESSAGE\",\"data\":\x7b\"id\":\"a1\"\x7d\x7d".toList

def f2 : Str :=
  "data: \x7b\"event_type\":\"RawResponsesStreamEvent\",\"data\":\x7b\"delta\":\"\x7b\\\"agent_response_text\\\": \\\"Here\"\x7d\x7d".toList

def f3 : Str :=
  "data: \x7b\"event_type\":\"RawResponsesStreamEvent\",\"data\":\x7b\"delta\":\" are 3 players\\\"\x7d\"\x7d\x7d".toList

def f4 : Str :=
  "data: \x7b\"event_type\":\"COMPLETE_ASSISTANT_MESSAGE\",\"data\":\x7b\"id\":\"a1\"\x7d\x7d".toList

/-- The controller after the four frames of the worked scenario. -/
def cFinal : Ctrl := processFrames ctrl0 [("e1", f1), ("e2", f2), ("e3", f3), ("e4", f4)]

def fErr : Str :=
  "data: \x7b\"event_type\":\"ServerError\",\"data\":\x7b\"error\":\"boom\"\x7d\x7d".toList

/-- Controller streaming message `a1` (after the START frame). -/
def c6start : Ctrl := processFrame ctrl0 "e0" f1

/-- Controller after an error frame arrives mid-stream. -/
def c6final : Ctrl := processFrame c6start "error-99" fErr

def chunkA : Str := "data: x\r\n\r\n".toList

def chunkB : Str := "data: y\n\n".toList

/-- The well-formed mixed-delimiter SSE stream `chunkA ++ chunkB`. -/
def mixedStream : Str := "data: x\r\n\r\ndata: y\n\n".toList

def staleMsg : Message :=
  { id := "m1", role := Role.assistant, content := "old",
    agentName := some "Assistant", isLoading := some false }

/-- A state whose message `m1` is not the active loading message. -/
def staleState : ChatState :=
  { messages := [("m1", staleMsg)]
    messageOrder := ["m1"]
    isLoading := false
    loadingMessageId := none
    currentAssistantMessageId := none }

/-- State with `x1` streaming. -/
def c5_sX : ChatState :=
  chatReducer initialState (ChatAction.START_ASSISTANT_MESSAGE "x1" none)

/-- State after a second `START_ASSISTANT_MESSAGE` with a new id. -/
def c5_sY : ChatState :=
  chatReducer c5_sX (ChatAction.START_ASSISTANT_MESSAGE "y1" none)

/-- A streaming state: user message sent, `a1` active with partial
content. -/
def c7_streaming : ChatState :=
  chatReducer
    (chatReducer s0 (ChatAction.START_ASSISTANT_MESSAGE "a1" none))
    (ChatAction.APPEND_DELTA "a1" "partial ans")

def c9Acts : List ChatAction :=
  [ChatAction.ADD_USER_MESSAGE userMsg0,
   ChatAction.START_ASSISTANT_MESSAGE "a1" none]

theorem leadsWith_length {p s : Str} (h : leadsWith p s = true) :
    p.length ≤ s.length := by
  induction p generalizing s with
  | nil => exact Nat.zero_le _
  | cons a as ih =>
    cases s with
    | nil => simp [leadsWith] at h
    | cons b bs =>
      simp only [leadsWith, Bool.and_eq_true] at h
      simpa [List.length_cons] using Nat.succ_le_succ (ih h.2)

theorem indexOfSub_bound {p s : Str} {i : Nat}
    (h : indexOfSub p s = some i) : i + p.length ≤ s.length := by
  induction s generalizing i with
  | nil =>
    simp only [indexOfSub] at h
    split at h
    · next hl =>
      cases h
      simpa using leadsWith_length hl
    · exact absurd h (by simp)
  | cons b bs ih =>
    simp only [indexOfSub] at h
    split at h
    · next hl =>
      cases h
      simpa using leadsWith_length hl
    · next hl =>
      cases hj : indexOfSub p bs with
      | none => rw [hj] at h; simp at h
      | some j =>
        rw [hj] at h
        simp only [Option.map_some'] at h
        cases h
        have := ih hj
        simp only [List.length_cons]
        omega

theorem boundaryOf_bound {s : Str} {i L : Nat}
    (h : boundaryOf s = some (i, L)) : 2 ≤ L ∧ i + L ≤ s.length := by
  unfold boundaryOf at h
  cases hn : indexOfSub nlDelim s with
  | some ni =>
    cases hc : indexOfSub crlfDelim s with
    | some ci =>
      rw [hn, hc] at h
      have hbn := indexOfSub_bound hn
      have hbc := indexOfSub_bound hc
      simp only [nlDelim, crlfDelim, List.length_cons, List.length_nil] at hbn hbc
      dsimp only at h
      by_cases hlt : ni < ci
      · rw [if_pos hlt] at h
        simp only [Option.some.injEq, Prod.mk.injEq] at h
        obtain ⟨h1, h2⟩ := h
        subst h1; subst h2
        constructor <;> omega
      · rw [if_neg hlt] at h
        simp only [Option.some.injEq, Prod.mk.injEq] at h
        obtain ⟨h1, h2⟩ := h
        subst h1; subst h2
        constructor <;> omega
    | none =>
      rw [hn, hc] at h
      cases h
      have hbn := indexOfSub_bound hn
      simp only [nlDelim, List.length_cons, List.length_nil] at hbn
      constructor <;> omega
  | none =>
    cases hc : indexOfSub crlfDelim s with
    | some ci =>
      rw [hn, hc] at h
      cases h
      have hbc := indexOfSub_bound hc
      simp only [crlfDelim, List.length_cons, List.length_nil] at hbc
      constructor <;> omega
    | none => rw [hn, hc] at h; exact absurd h (by simp)

theorem indexOfSub_leadsWith {p s : Str} {i : Nat}
    (h : indexOfSub p s = some i) : leadsWith p (s.drop i) = true := by
  induction s generalizing i with
  | nil =>
    simp only [indexOfSub] at h
    split at h
    · next hl => cases h; simpa using hl
    · exact absurd h (by simp)
  | cons b bs ih =>
    simp only [indexOfSub] at h
    split at h
    · next hl => cases h; simpa using hl
    · cases hj : indexOfSub p bs with
      | none => rw [hj] at h; simp at h
      | some j =>
        rw [hj] at h
        simp only [Option.map_some'] at h
        cases h
        simpa [List.drop_succ_cons] using ih hj

theorem leadsWith_nl_not_crlf {u : Str} (h : leadsWith nlDelim u = true) :
    leadsWith crlfDelim u = false := by
  cases u with
  | nil => simp [nlDelim, leadsWith] at h
  | cons c v =>
    simp only [nlDelim, leadsWith, Bool.and_eq_true, beq_iff_eq] at h
    simp [crlfDelim, leadsWith, ← h.1]

theorem boundaryOf001_bound {s : Str} {i : Nat}
    (h : boundaryOf001 s = some i) :
    i + (if leadsWith crlfDelim (s.drop i) then 4 else 2) ≤ s.length := by
  unfold boundaryOf001 at h
  cases hn : indexOfSub nlDelim s with
  | some ni =>
    rw [hn] at h
    cases h
    have hb := indexOfSub_bound hn
    simp only [nlDelim, List.length_cons, List.length_nil] at hb
    rw [leadsWith_nl_not_crlf (indexOfSub_leadsWith hn)]
    simpa using hb
  | none =>
    rw [hn] at h
    have hb := indexOfSub_bound h
    simp only [crlfDelim, List.length_cons, List.length_nil] at hb
    rw [indexOfSub_leadsWith h]
    simpa using hb

theorem leadsWith_append_of {p s : Str} (u : Str)
    (h : leadsWith p s = true) : leadsWith p (s ++ u) = true := by
  induction p generalizing s with
  | nil => simp [leadsWith]
  | cons a as ih =>
    cases s with
    | nil => simp [leadsWith] at h
    | cons b bs =>
      simp only [leadsWith, Bool.and_eq_true] at h
      simpa [leadsWith, h.1] using ih h.2

theorem leadsWith_of_append {p s u : Str}
    (h : leadsWith p (s ++ u) = true) (hl : p.length ≤ s.length) :
    leadsWith p s = true := by
  induction p generalizing s with
  | nil => simp [leadsWith]
  | cons a as ih =>
    cases s with
    | nil => simp at hl
    | cons b bs =>
      simp only [List.cons_append, leadsWith, Bool.and_eq_true] at h
      simp only [List.length_cons, Nat.succ_le_succ_iff] at hl
      simpa [leadsWith, h.1] using ih h.2 hl

theorem eq_take_of_leadsWith_append {p s u : Str}
    (h : leadsWith p (s ++ u) = true) (hl : s.length ≤ p.length) :
    s = p.take s.length := by
  induction s generalizing p with
  | nil => simp
  | cons b bs ih =>
    cases p with
    | nil => simp at hl
    | cons a as =>
      simp only [List.cons_append, leadsWith, Bool.and_eq_true, beq_iff_eq] at h
      simp only [List.length_cons, Nat.succ_le_succ_iff] at hl
      simp only [List.length_cons, List.take_succ_cons]
      rw [h.1, ← ih h.2 hl]

theorem leadsWith_crlf_not_nl {u : Str}
    (h : leadsWith crlfDelim u = true) : leadsWith nlDelim u = false := by
  cases u with
  | nil => simp [crlfDelim, leadsWith] at h
  | cons c v =>
    simp only [crlfDelim, leadsWith, Bool.and_eq_true, beq_iff_eq] at h
    simp [nlDelim, leadsWith, ← h.1]

theorem boundaryOf_nil : boundaryOf [] = none := by decide

theorem indexOfSub_cons (p : Str) (c : Char) (t : Str) :
    indexOfSub p (c :: t) =
      if leadsWith p (c :: t) = true then some 0
      else (indexOfSub p t).map (fun n => n + 1) := rfl

theorem boundaryOf_def (s : Str) :
    boundaryOf s =
      match indexOfSub nlDelim s, indexOfSub crlfDelim s with
      | some ni, some ci => if ni < ci then some (ni, 2) else some (ci, 4)
      | some ni, none => some (ni, 2)
      | none, some ci => some (ci, 4)
      | none, none => none := rfl

/-- Structural characterization of the earliest-delimiter search. -/
theorem boundaryOf_cons (c : Char) (t : Str) :
    boundaryOf (c :: t) =
      if leadsWith crlfDelim (c :: t) = true then some (0, 4)
      else if leadsWith nlDelim (c :: t) = true then some (0, 2)
      else (boundaryOf t).map (fun p => (p.1 + 1, p.2)) := by
  by_cases hcr : leadsWith crlfDelim (c :: t) = true
  · have e1 : indexOfSub crlfDelim (c :: t) = some 0 := by
      rw [indexOfSub_cons, if_pos hcr]
    have e2 : indexOfSub nlDelim (c :: t)
        = (indexOfSub nlDelim t).map (fun n => n + 1) := by
      rw [indexOfSub_cons, if_neg (by simp [leadsWith_crlf_not_nl hcr])]
    rw [boundaryOf_def, e1, e2, if_pos hcr]
    cases indexOfSub nlDelim t <;> simp
  · rw [if_neg hcr]
    have e2 : indexOfSub crlfDelim (c :: t)
        = (indexOfSub crlfDelim t).map (fun n => n + 1) := by
      rw [indexOfSub_cons, if_neg hcr]
    by_cases hnl : leadsWith nlDelim (c :: t) = true
    · have e1 : indexOfSub nlDelim (c :: t) = some 0 := by
        rw [indexOfSub_cons, if_pos hnl]
      rw [boundaryOf_def, e1, e2, if_pos hnl]
      cases indexOfSub crlfDelim t <;> simp
    · have e1 : indexOfSub nlDelim (c :: t)
          = (indexOfSub nlDelim t).map (fun n => n + 1) := by
        rw [indexOfSub_cons, if_neg hnl]
      rw [if_neg hnl, boundaryOf_def, e1, e2, boundaryOf_def]
      cases hX : indexOfSub nlDelim t <;> cases hY : indexOfSub crlfDelim t
      · rfl
      · rfl
      · rfl
      · next ni ci =>
        simp only [Option.map_some']
        rcases Nat.lt_or_ge ni ci with hlt | hge
        · rw [if_pos hlt, if_pos (show ni + 1 < ci + 1 by omega)]
          rfl
        · rw [if_neg (show ¬ ni < ci by omega),
            if_neg (show ¬ ni + 1 < ci + 1 by omega)]
          rfl

/-- Appending more input on the right never changes an already-found
earliest boundary: the earliest-delimiter search of
`processStreamChunk` is stable under stream extension. -/
theorem boundaryOf_append {s : Str} (u : Str) {i L : Nat}
    (h : boundaryOf s = some (i, L)) :
    boundaryOf (s ++ u) = some (i, L) := by
  induction s generalizing i with
  | nil => rw [boundaryOf_nil] at h; exact absurd h (by simp)
  | cons c t ih =>
    rw [boundaryOf_cons] at h
    rw [List.cons_append, boundaryOf_cons]
    by_cases hcr : leadsWith crlfDelim (c :: t) = true
    · rw [if_pos hcr] at h
      have hcr2 : leadsWith crlfDelim (c :: (t ++ u)) = true := by
        rw [← List.cons_append]
        exact leadsWith_append_of u hcr
      rw [if_pos hcr2]
      exact h
    · rw [if_neg hcr] at h
      by_cases hnl : leadsWith nlDelim (c :: t) = true
      · rw [if_pos hnl] at h
        have hnl2 : leadsWith nlDelim (c :: (t ++ u)) = true := by
          rw [← List.cons_append]
          exact leadsWith_append_of u hnl
        rw [if_neg (by rw [leadsWith_nl_not_crlf hnl2]; exact Bool.false_ne_true),
          if_pos hnl2]
        exact h
      · rw [if_neg hnl] at h
        cases hb : boundaryOf t with
        | none => rw [hb] at h; exact absurd h (by simp)
        | some p =>
          obtain ⟨j, M⟩ := p
          rw [hb] at h
          simp only [Option.map_some', Option.some.injEq, Prod.mk.injEq] at h
          obtain ⟨h1, h2⟩ := h
          subst h1
          subst h2
          have hbnd := boundaryOf_bound hb
          have htlen : t.length ≥ 2 := by
            have := hbnd.2
            have := hbnd.1
            omega
          by_cases hcr2 : leadsWith crlfDelim (c :: (t ++ u)) = true
          · -- a `"\r\n\r\n"` completed only by the appended text:
            -- then `c :: t` would have to be a strict prefix of the
            -- delimiter, too short to contain the boundary of `hb`.
            exfalso
            have hcr2' : leadsWith crlfDelim ((c :: t) ++ u) = true := by
              rw [List.cons_append]; exact hcr2
            have hcl4 : crlfDelim.length = 4 := rfl
            have hlen : (c :: t).length < 4 := by
              by_contra hgt
              exact hcr (leadsWith_of_append hcr2' (by rw [hcl4]; omega))
            have hlen3 : (c :: t).length = 3 := by
              simp only [List.length_cons] at hlen ⊢
              omega
            have heq := eq_take_of_leadsWith_append (p := crlfDelim) hcr2'
              (by rw [hcl4]; omega)
            rw [hlen3] at heq
            have ht : t = ['\n', '\r'] := by
              simp only [crlfDelim, List.take_succ_cons, List.take_zero] at heq
              injection heq with h1 h2
            have hnone : boundaryOf (['\n', '\r'] : Str) = none := by decide
            rw [ht, hnone] at hb
            exact absurd hb (by simp)
          · rw [if_neg hcr2]
            by_cases hnl2 : leadsWith nlDelim (c :: (t ++ u)) = true
            · -- an `"\n\n"` completed only by the appended text:
              -- `c :: t` would be a one-character buffer, contradicting
              -- the boundary of `hb`.
              exfalso
              have hnl2' : leadsWith nlDelim ((c :: t) ++ u) = true := by
                rw [List.cons_append]; exact hnl2
              have hnl2len : nlDelim.length = 2 := rfl
              have hlen : (c :: t).length < 2 := by
                by_contra hgt
                exact hnl (leadsWith_of_append hnl2' (by rw [hnl2len]; omega))
              simp only [List.length_cons] at hlen
              omega
            · rw [if_neg hnl2, ih hb]
              rfl

theorem processBlocksF_fuel {a b : Nat} {s : Str}
    (h1 : s.length ≤ a) (h2 : s.length ≤ b) :
    processBlocksF a s = processBlocksF b s := by
  induction a generalizing b s with
  | zero =>
    have hs : s = [] := List.length_eq_zero.mp (by omega)
    subst hs
    cases b <;> simp [processBlocksF, boundaryOf_nil]
  | succ a ih =>
    cases b with
    | zero =>
      have hs : s = [] := List.length_eq_zero.mp (by omega)
      subst hs
      simp [processBlocksF, boundaryOf_nil]
    | succ b =>
      cases hb : boundaryOf s with
      | none => simp [processBlocksF, hb]
      | some p =>
        obtain ⟨i, L⟩ := p
        have hbnd := boundaryOf_bound hb
        simp only [processBlocksF, hb]
        rw [ih (b := b) (by simp only [List.length_drop]; omega)
          (by simp only [List.length_drop]; omega)]

/-- One-step unfolding of the `processStreamChunk` splitter loop. -/
theorem processBlocks_eq (s : Str) :
    processBlocks s =
      match boundaryOf s with
      | none => ([], s)
      | some (i, L) =>
        let block := trimS (s.take i)
        let r := processBlocks (s.drop (i + L))
        (if block = [] then r.1 else block :: r.1, r.2) := by
  cases hb : boundaryOf s with
  | none =>
    unfold processBlocks
    cases hl : s.length with
    | zero => simp [processBlocksF]
    | succ k => simp [processBlocksF, hb]
  | some p =>
    obtain ⟨i, L⟩ := p
    have hbnd := boundaryOf_bound hb
    unfold processBlocks
    obtain ⟨k, hk⟩ : ∃ k, s.length = k + 1 := ⟨s.length - 1, by omega⟩
    rw [hk]
    simp only [processBlocksF, hb]
    rw [processBlocksF_fuel (b := (s.drop (i + L)).length)
      (by simp only [List.length_drop]; omega) (Nat.le_refl _)]

/-- The remainder returned by the splitter never contains a complete
delimiter. -/
theorem boundaryOf_processBlocks_rem (s : Str) :
    boundaryOf (processBlocks s).2 = none := by
  generalize hn : s.length = n
  induction n using Nat.strong_induction_on generalizing s with
  | _ n ih =>
    cases hb : boundaryOf s with
    | none => rw [processBlocks_eq, hb]; exact hb
    | some p =>
      obtain ⟨i, L⟩ := p
      have hbnd := boundaryOf_bound hb
      rw [processBlocks_eq, hb]
      exact ih (s.drop (i + L)).length
        (by simp only [List.length_drop]; omega) _ rfl

/-- Splitting a buffer extended on the right: the frames of `s ++ u`
are the frames of `s` followed by the frames obtained from the
remainder of `s` glued to `u`. -/
theorem processBlocks_append (s u : Str) :
    processBlocks (s ++ u)
      = ((processBlocks s).1 ++ (processBlocks ((processBlocks s).2 ++ u)).1,
         (processBlocks ((processBlocks s).2 ++ u)).2) := by
  generalize hn : s.length = n
  induction n using Nat.strong_induction_on generalizing s with
  | _ n ih =>
    cases hb : boundaryOf s with
    | none =>
      have hs : processBlocks s = ([], s) := by rw [processBlocks_eq, hb]
      rw [hs]
      simp
    | some p =>
      obtain ⟨i, L⟩ := p
      have hbnd := boundaryOf_bound hb
      have hb2 := boundaryOf_append u hb
      have htake : (s ++ u).take i = s.take i := by
        rw [List.take_append_eq_append_take, show i - s.length = 0 by omega]
        simp
      have hdrop : (s ++ u).drop (i + L) = s.drop (i + L) ++ u := by
        rw [List.drop_append_eq_append_drop, show i + L - s.length = 0 by omega]
        simp
      have IH := ih (s.drop (i + L)).length
        (by simp only [List.length_drop]; omega) (s.drop (i + L)) rfl
      rw [processBlocks_eq (s := s ++ u), hb2, processBlocks_eq (s := s), hb]
      simp only [htake, hdrop]
      rw [IH]
      by_cases hblock : trimS (s.take i) = []
      · simp [hblock]
      · simp [hblock]

theorem feedChunks_loop (chunks : List Str) (fr : List Str) (rem : Str)
    (h : boundaryOf rem = none) :
    chunks.foldl
      (fun acc c =>
        let r := processBlocks (acc.2 ++ c)
        (acc.1 ++ r.1, r.2)) (fr, rem)
    = (fr ++ (processBlocks (rem ++ chunks.flatten)).1,
       (processBlocks (rem ++ chunks.flatten)).2) := by
  induction chunks generalizing fr rem with
  | nil =>
    simp only [List.foldl_nil, List.flatten_nil, List.append_nil]
    rw [processBlocks_eq, h]
    simp
  | cons c cs ih =>
    simp only [List.foldl_cons, List.flatten_cons]
    rw [ih _ _ (boundaryOf_processBlocks_rem _)]
    rw [← List.append_assoc rem c cs.flatten, processBlocks_append (rem ++ c) cs.flatten]
    simp [List.append_assoc]

theorem dropWhile_append_all {p : Char → Bool} {w : Str} (y : Str)
    (hw : ∀ c ∈ w, p c = true) :
    (w ++ y).dropWhile p = y.dropWhile p := by
  induction w with
  | nil => rfl
  | cons a as ih =>
    rw [List.cons_append, List.dropWhile_cons]
    rw [hw a (by simp)]
    simp only [if_true]
    exact ih (fun c hc => hw c (by simp [hc]))

theorem trimS_append_ws {x w : Str} (hw : ∀ c ∈ w, isWS c = true) :
    trimS (x ++ w) = trimS x := by
  unfold trimS trimR
  rw [List.reverse_append]
  rw [dropWhile_append_all _ (fun c hc => hw c (List.mem_reverse.mp hc))]

/-- Appending the synthetic `"\n\n"` delimiter to a delimiter-free
buffer creates exactly one boundary, whose block is the buffer up to
trailing whitespace and whose leftover is empty or a lone `'\n'`. -/
theorem flush_step {B : Str} (h : boundaryOf B = none) :
    ∃ i L w, boundaryOf (B ++ nlDelim) = some (i, L) ∧
      (B ++ nlDelim).take i ++ w = B ∧
      (∀ c ∈ w, isWS c = true) ∧
      ((B ++ nlDelim).drop (i + L) = [] ∨ (B ++ nlDelim).drop (i + L) = ['\n']) := by
  induction B with
  | nil =>
    exact ⟨0, 2, [], by decide, by decide, by simp, Or.inl (by decide)⟩
  | cons c t ih =>
    rw [boundaryOf_cons] at h
    by_cases hcr : leadsWith crlfDelim (c :: t) = true
    · rw [if_pos hcr] at h; exact absurd h (by simp)
    rw [if_neg hcr] at h
    by_cases hnl : leadsWith nlDelim (c :: t) = true
    · rw [if_pos hnl] at h; exact absurd h (by simp)
    rw [if_neg hnl] at h
    have ht : boundaryOf t = none := by
      cases hbt : boundaryOf t with
      | none => rfl
      | some p => rw [hbt] at h; simp at h
    by_cases hcr2 : leadsWith crlfDelim ((c :: t) ++ nlDelim) = true
    · have hcl4 : crlfDelim.length = 4 := rfl
      have hlen : (c :: t).length < 4 := by
        by_contra hgt
        exact hcr (leadsWith_of_append hcr2 (by rw [hcl4]; omega))
      have heq := eq_take_of_leadsWith_append (p := crlfDelim) hcr2
        (by rw [hcl4]; omega)
      cases t with
      | nil =>
        have heq' : [c] = ['\r'] := heq
        injection heq' with hc
        subst hc
        exact absurd hcr2 (by decide)
      | cons a t2 =>
        cases t2 with
        | nil =>
          have heq' : [c, a] = ['\r', '\n'] := heq
          injection heq' with hc h2
          injection h2 with ha
          subst hc; subst ha
          exact absurd hcr2 (by decide)
        | cons b t3 =>
          cases t3 with
          | nil =>
            have heq' : [c, a, b] = ['\r', '\n', '\r'] := heq
            injection heq' with hc h2
            injection h2 with ha h3
            injection h3 with hb
            subst hc; subst ha; subst hb
            exact ⟨0, 4, ['\r', '\n', '\r'], by decide, by decide, by decide,
              Or.inr (by decide)⟩
          | cons d t4 =>
            simp only [List.length_cons] at hlen
            omega
    · by_cases hnl2 : leadsWith nlDelim ((c :: t) ++ nlDelim) = true
      · have hnlen : nlDelim.length = 2 := rfl
        have hlen : (c :: t).length < 2 := by
          by_contra hgt
          exact hnl (leadsWith_of_append hnl2 (by rw [hnlen]; omega))
        cases t with
        | nil =>
          have heq := eq_take_of_leadsWith_append (p := nlDelim) hnl2
            (by rw [hnlen]; omega)
          have heq' : [c] = ['\n'] := heq
          injection heq' with hc
          subst hc
          exact ⟨0, 2, ['\n'], by decide, by decide, by decide, Or.inr (by decide)⟩
        | cons a t2 => simp only [List.length_cons] at hlen; omega
      · obtain ⟨i, L, w, hb, hw1, hw2, hd⟩ := ih ht
        have hcr2' : ¬ leadsWith crlfDelim (c :: (t ++ nlDelim)) = true := by
          rw [← List.cons_append]; exact hcr2
        have hnl2' : ¬ leadsWith nlDelim (c :: (t ++ nlDelim)) = true := by
          rw [← List.cons_append]; exact hnl2
        refine ⟨i + 1, L, w, ?_, ?_, hw2, ?_⟩
        · rw [List.cons_append, boundaryOf_cons, if_neg hcr2', if_neg hnl2', hb]
          rfl
        · rw [List.cons_append, List.take_succ_cons, List.cons_append, hw1]
        · rw [List.cons_append, show i + 1 + L = (i + L) + 1 by omega,
            List.drop_succ_cons]
          exact hd

/-- Flushing a delimiter-free buffer with a non-empty trim through the
splitter recovers exactly its trimmed content as one frame. -/
theorem processBlocks_flush {B : Str} (h : boundaryOf B = none)
    (ht : trimS B ≠ []) :
    (processBlocks (B ++ nlDelim)).1 = [trimS B] := by
  obtain ⟨i, L, w, hb, hw1, hw2, hd⟩ := flush_step h
  have hblock : trimS ((B ++ nlDelim).take i) = trimS B := by
    conv_rhs => rw [← hw1]
    rw [trimS_append_ws hw2]
  rw [processBlocks_eq, hb]
  simp only [hblock]
  have hrest : processBlocks ((B ++ nlDelim).drop (i + L)) = ([], (B ++ nlDelim).drop (i + L)) := by
    cases hd with
    | inl h0 => rw [h0]; decide
    | inr h1 => rw [h1]; decide
  rw [hrest, if_neg ht]

theorem objGet_map_set {m : List (String × Message)} {k X : String}
    {v : Message} (h : X ≠ k) :
    objGet (m.map (fun p => if p.1 = k then (k, v) else p)) X = objGet m X := by
  induction m with
  | nil => rfl
  | cons p rest ih =>
    obtain ⟨a, b⟩ := p
    rw [List.map_cons]
    by_cases hp : a = k
    · subst hp
      rw [show (if ((a, b) : String × Message).1 = a then (a, v) else (a, b))
        = (a, v) from if_pos rfl]
      show (if a = X then some v else _) = (if a = X then some b else _)
      rw [if_neg (fun hx => h hx.symm), if_neg (fun hx => h hx.symm)]
      exact ih
    · rw [if_neg (show ¬ ((a, b) : String × Message).1 = k from hp)]
      show (if a = X then some b else _) = (if a = X then some b else _)
      by_cases hax : a = X
      · rw [if_pos hax, if_pos hax]
      · rw [if_neg hax, if_neg hax]
        exact ih

theorem objGet_append_single {m : List (String × Message)} {k X : String}
    {v : Message} (h : X ≠ k) :
    objGet (m ++ [(k, v)]) X = objGet m X := by
  induction m with
  | nil =>
    show (if k = X then some v else none) = none
    rw [if_neg (fun hx => h hx.symm)]
  | cons p rest ih =>
    rw [List.cons_append]
    show (if p.1 = X then some p.2 else _) = (if p.1 = X then some p.2 else _)
    by_cases hax : p.1 = X
    · rw [if_pos hax, if_pos hax]
    · rw [if_neg hax, if_neg hax]
      exact ih

theorem objGet_objSet_ne {m : List (String × Message)} {k X : String}
    {v : Message} (h : X ≠ k) :
    objGet (objSet m k v) X = objGet m X := by
  unfold objSet
  split
  · exact objGet_map_set h
  · exact objGet_append_single h

theorem chatReducer_messageOrder (s : ChatState) (a : ChatAction) :
    (chatReducer s a).messageOrder = s.messageOrder ++ (appendOf a).toList ∨
    (chatReducer s a).messageOrder = [] := by
  cases a with
  | ADD_USER_MESSAGE m => left; rfl
  | START_ASSISTANT_MESSAGE id an => left; rfl
  | SET_ERROR ec eid => left; rfl
  | RESET_CHAT => right; rfl
  | APPEND_DELTA id d =>
    left
    rw [show (appendOf (ChatAction.APPEND_DELTA id d)).toList = [] from rfl,
      List.append_nil]
    simp only [chatReducer]
    cases objGet s.messages id
    · rfl
    · dsimp only
      split <;> rfl
  | UPDATE_ASSISTANT_JSON_CONTENT id t b p =>
    left
    rw [show (appendOf (ChatAction.UPDATE_ASSISTANT_JSON_CONTENT id t b p)).toList = []
      from rfl, List.append_nil]
    simp only [chatReducer]
    cases objGet s.messages id <;> rfl
  | UPDATE_AGENT_NAME id n =>
    left
    rw [show (appendOf (ChatAction.UPDATE_AGENT_NAME id n)).toList = [] from rfl,
      List.append_nil]
    simp only [chatReducer]
    cases objGet s.messages id
    · rfl
    · dsimp only
      split <;> rfl
  | COMPLETE_ASSISTANT_MESSAGE id =>
    left
    rw [show (appendOf (ChatAction.COMPLETE_ASSISTANT_MESSAGE id)).toList = []
      from rfl, List.append_nil]
    simp only [chatReducer]
    split
    · rfl
    · cases objGet s.messages id <;> rfl

theorem foldl_messageOrder_sublist (acts : List ChatAction) (s : ChatState)
    (X : List String) (h : s.messageOrder.Sublist X) :
    ((acts.foldl chatReducer s).messageOrder).Sublist
      (X ++ acts.filterMap appendOf) := by
  induction acts generalizing s X with
  | nil => simpa using h
  | cons a rest ih =>
    simp only [List.foldl_cons]
    cases ha : appendOf a with
    | none =>
      simp only [List.filterMap_cons, ha]
      apply ih
      rcases chatReducer_messageOrder s a with ho | ho
      · rw [ho, ha]
        simpa using h
      · rw [ho]; exact List.nil_sublist X
    | some b =>
      simp only [List.filterMap_cons, ha]
      have hX : X ++ b :: rest.filterMap appendOf
          = (X ++ [b]) ++ rest.filterMap appendOf := by simp
      rw [hX]
      apply ih
      rcases chatReducer_messageOrder s a with ho | ho
      · rw [ho, ha]
        exact h.append (List.Sublist.refl [b])
      · rw [ho]; exact List.nil_sublist _

/-- C1 counterexample: the claim fails on the `handleSendMessage`
splitter loop (part_001).  On the well-formed SSE stream
`"data: x\r\n\r\ndata: y\n\n"`, feeding it in one piece yields one
merged frame (the loop prefers the later `"\n\n"` over the earlier
`"\r\n\r\n"`), while feeding it as two chunks yields the two real
frames, so chunked and unchunked runs disagree. -/
theorem splitFrames001_not_chunk_invariant :
    chunkA ++ chunkB = mixedStream ∧
    (feedChunks001 [chunkA, chunkB]).1 = ["data: x".toList, "data: y".toList] ∧
    (splitFrames001 mixedStream).1 = ["data: x\r\n\r\ndata: y".toList] ∧
    (feedChunks001 [chunkA, chunkB]).1 ≠ (splitFrames001 mixedStream).1 := by
  refine ⟨by decide, by decide, by decide, by decide⟩

/-- C1 (amended): chunk-boundary invariance holds for the
`processStreamChunk` Frame Splitter (part_000): for every byte stream
and every way of splitting it into chunks, feeding the chunks through
the splitter loop, carrying the unterminated remainder from each call
into the next, yields exactly the frames and final remainder of feeding
the entire stream in a single call. -/
theorem processStreamChunk_chunk_invariance (chunks : List Str) :
    feedChunks chunks = processBlocks chunks.flatten := by
  unfold feedChunks
  rw [feedChunks_loop chunks [] [] (by decide)]
  simp

/-- C2 counterexample: the claim fails on the `handleSendMessage`
splitter (part_001).  In `mixedStream` the delimiter `"\r\n\r\n"`
occurs at index 7 and `"\n\n"` at index 18, yet the step consumes the
boundary at index 18 and emits everything before it, not the text
before the lower-index delimiter. -/
theorem splitterStep001_not_earliest :
    indexOfSub crlfDelim mixedStream = some 7 ∧
    indexOfSub nlDelim mixedStream = some 18 ∧
    splitterStep001 mixedStream
      = some (18, 2, "data: x\r\n\r\ndata: y".toList, []) ∧
    splitterStep001 mixedStream
      ≠ some (7, 4, trimS (mixedStream.take 7), mixedStream.drop 11) := by
  refine ⟨by decide, by decide, by decide, by decide⟩

/-- C2 (amended): the earliest-delimiter rule holds for the
`processStreamChunk` splitter (part_000): whenever a buffer contains
both `"\n\n"` and `"\r\n\r\n"`, their first indices differ, the step
consumes the occurrence at the lower index, and the emitted frame is
exactly the trimmed text before that boundary. -/
theorem processStreamChunk_earliest_delimiter {s : Str} {ni ci : Nat}
    (hn : indexOfSub nlDelim s = some ni)
    (hc : indexOfSub crlfDelim s = some ci) :
    ni ≠ ci ∧
    splitterStep s = some (min ni ci, (if ni < ci then 2 else 4),
      trimS (s.take (min ni ci)),
      s.drop (min ni ci + (if ni < ci then 2 else 4))) := by
  constructor
  · intro hEq
    have h1 := indexOfSub_leadsWith hn
    have h2 := indexOfSub_leadsWith hc
    rw [hEq, leadsWith_crlf_not_nl h2] at h1
    exact Bool.false_ne_true h1
  · unfold splitterStep
    rw [boundaryOf_def, hn, hc]
    dsimp only
    by_cases hlt : ni < ci
    · rw [Nat.min_eq_left (Nat.le_of_lt hlt), if_pos hlt, if_pos hlt]
    · rw [Nat.min_eq_right (Nat.le_of_not_lt hlt), if_neg hlt, if_neg hlt]

/-- Witness for C2 at a concrete buffer containing both delimiters. -/
theorem processStreamChunk_earliest_delimiter_witness :
    (1 : Nat) ≠ 4 ∧
    splitterStep ("a\n\nb\r\n\r\nc".toList)
      = some (min 1 4, (if 1 < 4 then 2 else 4),
        trimS (("a\n\nb\r\n\r\nc".toList).take (min 1 4)),
        ("a\n\nb\r\n\r\nc".toList).drop (min 1 4 + (if 1 < 4 then 2 else 4))) :=
  processStreamChunk_earliest_delimiter (by decide) (by decide)

/-- C3: partial-JSON replace semantics end to end.  Starting from the
streaming state after the user submit, the frame sequence START(a1),
delta `{"agent_response_text": "Here`, delta ` are 3 players"}`,
COMPLETE(a1) leaves message `a1` with content exactly the extracted
field `Here are 3 players`: the concatenated raw deltas are replaced by
the parsed `agent_response_text`, not displayed verbatim. -/
theorem partial_json_replace_end_to_end :
    (objGet cFinal.chat.messages "a1").map Message.content
      = some "Here are 3 players" := by decide

/-- C4 counterexample: `UPDATE_ASSISTANT_JSON_CONTENT` is not guarded
by the active loading id.  In `staleState` no message is loading, yet
the action rewrites the existing message `m1`, so the reducer does not
return the state unchanged. -/
theorem update_json_bypasses_guard :
    staleState.loadingMessageId ≠ some "m1" ∧
    chatReducer staleState
      (ChatAction.UPDATE_ASSISTANT_JSON_CONTENT "m1" "hijacked" false none)
      ≠ staleState ∧
    (objGet (chatReducer staleState
      (ChatAction.UPDATE_ASSISTANT_JSON_CONTENT "m1" "hijacked" false none)).messages
      "m1").map Message.content = some "hijacked" := by
  refine ⟨by decide, by decide, by decide⟩

/-- C4 (amended): the stale-event guard holds for `APPEND_DELTA` and
`UPDATE_AGENT_NAME`: when the target id is not the active loading id
the reducer returns the state unchanged.  `UPDATE_ASSISTANT_JSON_CONTENT`
is guarded only by existence: it leaves the state unchanged exactly
when the target id is absent from `messages`. -/
theorem chatReducer_stale_guard (s : ChatState) (id delta name t : String)
    (b : Bool) (p : Option String) (h : s.loadingMessageId ≠ some id) :
    chatReducer s (ChatAction.APPEND_DELTA id delta) = s ∧
    chatReducer s (ChatAction.UPDATE_AGENT_NAME id name) = s ∧
    (objGet s.messages id = none →
      chatReducer s (ChatAction.UPDATE_ASSISTANT_JSON_CONTENT id t b p) = s) := by
  refine ⟨?_, ?_, fun hn => ?_⟩
  · simp only [chatReducer]
    cases objGet s.messages id
    · rfl
    · dsimp only
      rw [if_pos h]
  · simp only [chatReducer]
    cases objGet s.messages id
    · rfl
    · dsimp only
      rw [if_pos h]
  · simp only [chatReducer]
    rw [hn]

/-- Witness for C4 at a concrete stale state and id. -/
theorem chatReducer_stale_guard_witness :
    chatReducer staleState (ChatAction.APPEND_DELTA "mX" "d") = staleState ∧
    chatReducer staleState (ChatAction.UPDATE_AGENT_NAME "mX" "N") = staleState ∧
    (objGet staleState.messages "mX" = none →
      chatReducer staleState
        (ChatAction.UPDATE_ASSISTANT_JSON_CONTENT "mX" "t" false none) = staleState) :=
  chatReducer_stale_guard staleState "mX" "d" "N" "t" false none (by decide)

/-- C5 counterexample: a second `START_ASSISTANT_MESSAGE` does not
finalize the prior active message.  After `x1` starts streaming and
`y1` starts, `x1.isLoading` is still `true` — it never becomes `false`
as the claim requires. -/
theorem start_overlap_no_finalize :
    c5_sX.loadingMessageId = some "x1" ∧
    (objGet c5_sY.messages "x1").map Message.isLoading = some (some true) ∧
    c5_sY.loadingMessageId = some "y1" := by
  refine ⟨by decide, by decide, by decide⟩

/-- C5 (amended): on a second `START_ASSISTANT_MESSAGE` with a fresh
id `Y` while `X` is the active message, `X`'s entry is left completely
untouched (content preserved, `isLoading` still `true` — there is no
implicit completion), `Y` becomes the single active message in both
active-id fields, and `Y` is appended to the order. -/
theorem start_overlap_prior_preserved (s : ChatState) (X Y : String)
    (an : Option String) (_hact : s.loadingMessageId = some X) (hne : X ≠ Y) :
    objGet (chatReducer s (ChatAction.START_ASSISTANT_MESSAGE Y an)).messages X
      = objGet s.messages X ∧
    (chatReducer s (ChatAction.START_ASSISTANT_MESSAGE Y an)).loadingMessageId
      = some Y ∧
    (chatReducer s (ChatAction.START_ASSISTANT_MESSAGE Y an)).currentAssistantMessageId
      = some Y ∧
    (chatReducer s (ChatAction.START_ASSISTANT_MESSAGE Y an)).messageOrder
      = s.messageOrder ++ [Y] := by
  refine ⟨?_, rfl, rfl, rfl⟩
  simp only [chatReducer]
  exact objGet_objSet_ne hne

/-- Witness for C5 at the concrete overlapping-start scenario. -/
theorem start_overlap_prior_preserved_witness :
    objGet (chatReducer c5_sX (ChatAction.START_ASSISTANT_MESSAGE "y1" none)).messages "x1"
      = objGet c5_sX.messages "x1" ∧
    (chatReducer c5_sX (ChatAction.START_ASSISTANT_MESSAGE "y1" none)).loadingMessageId
      = some "y1" ∧
    (chatReducer c5_sX (ChatAction.START_ASSISTANT_MESSAGE "y1" none)).currentAssistantMessageId
      = some "y1" ∧
    (chatReducer c5_sX (ChatAction.START_ASSISTANT_MESSAGE "y1" none)).messageOrder
      = c5_sX.messageOrder ++ ["y1"] :=
  start_overlap_prior_preserved c5_sX "x1" "y1" none (by decide) (by decide)

/-- C6: evaluating the error path at the failing input.  While `a1` is
streaming, a `ServerError` frame appends exactly one error message with
`Error: `-prefixed content and clears the global loading flag, but the
active message `a1` keeps `isLoading = true`: the controller's
force-complete dispatch runs after `SET_ERROR` already cleared
`loadingMessageId` and `currentAssistantMessageId`, so the
`COMPLETE_ASSISTANT_MESSAGE` guard rejects it — dead code where the
claim (and the code's own intent) expects `a1` to be finalized. -/
theorem error_event_dead_force_complete :
    c6final.chat.messageOrder = ["user-1", "a1", "error-99"] ∧
    (objGet c6final.chat.messages "error-99").map Message.content
      = some "Error: boom" ∧
    c6final.chat.isLoading = false ∧
    (objGet c6final.chat.messages "a1").map Message.isLoading
      = some (some true) := by
  refine ⟨by decide, by decide, by decide, by decide⟩

/-- C7 counterexample: submitting while `a1` is still streaming does
not abort, force-complete or start anything — both handlers bail out on
`isLoading` and the state is returned unchanged (the second submission
is simply dropped). -/
theorem submit_while_streaming_rejected_cex :
    c7_streaming.isLoading = true ∧
    c7_streaming.loadingMessageId = some "a1" ∧
    (objGet c7_streaming.messages "a1").map Message.content
      = some "partial ans" ∧
    handleSendMessage_submit c7_streaming "user-2" "second question"
      = (c7_streaming, false) ∧
    handleSubmit_proceeds ("second question".toList) true = false := by
  refine ⟨by decide, by decide, by decide, by decide, by decide⟩

/-- C7 (amended): a submit while a session is streaming is rejected
outright: `handleSendMessage` (part_001) returns with the state
unchanged and no request started, and the `handleSubmit` guard
(part_000) does not proceed — so nothing is aborted, the active message
is not force-completed, and no new message begins. -/
theorem submit_while_loading_rejected (s : ChatState) (mid inp : String)
    (inp2 : Str) (h : s.isLoading = true) :
    handleSendMessage_submit s mid inp = (s, false) ∧
    handleSubmit_proceeds inp2 true = false := by
  constructor
  · unfold handleSendMessage_submit
    rw [if_pos h]
  · unfold handleSubmit_proceeds
    rw [Bool.or_true]
    rfl

/-- Witness for C7 at the concrete streaming state. -/
theorem submit_while_loading_rejected_witness :
    handleSendMessage_submit c7_streaming "user-2" "hello" = (c7_streaming, false) ∧
    handleSubmit_proceeds ("hello".toList) true = false :=
  submit_while_loading_rejected c7_streaming "user-2" "hello" ("hello".toList)
    (by decide)

/-- C8 counterexample: the claim fails on the `handleSendMessage` read
loop (part_001).  With the frame `f1` left unterminated in
`fetchBuffer` when `done` arrives, the loop only runs its
force-complete step (a no-op here) and never touches the remainder,
although flushing it with a synthetic delimiter recovers exactly the
frame and processing that frame would change the state. -/
theorem onDone001_discards_remainder :
    handleSendMessage_onDone ctrl0 = ctrl0 ∧
    (processBlocks (f1 ++ nlDelim)).1 = [f1] ∧
    processFrame ctrl0 "e1" f1 ≠ ctrl0 := by
  refine ⟨by decide, by decide, by decide⟩

/-- C8 (amended): the end-of-stream flush holds for `handleSubmit`
(part_000): when the transport signals done while the carried remainder
has non-empty trim (and, as the loop guarantees, contains no complete
delimiter), appending the synthetic `"\n\n"` and re-invoking the
splitter once processes exactly the one frame `buffer.trim()`, so a
final frame lacking its delimiter is decoded rather than discarded. -/
theorem handleSubmit_flush {B : Str} (h1 : boundaryOf B = none)
    (h2 : trimS B ≠ []) :
    handleSubmitDoneFrames B = [trimS B] := by
  unfold handleSubmitDoneFrames
  rw [if_neg h2]
  exact processBlocks_flush h1 h2

/-- Witness for C8 at a concrete unterminated final frame. -/
theorem handleSubmit_flush_witness :
    handleSubmitDoneFrames ("data: x".toList) = [trimS ("data: x".toList)] ∧
    trimS ("data: x".toList) = "data: x".toList :=
  ⟨handleSubmit_flush (by decide) (by decide), by decide⟩

/-- C9 counterexample: the reducer appends ids to `messageOrder`
unconditionally, so repeating a `START_ASSISTANT_MESSAGE` id from the
initial state yields a duplicated order, violating the claim. -/
theorem messageOrder_duplicate :
    (([ChatAction.START_ASSISTANT_MESSAGE "a" none,
       ChatAction.START_ASSISTANT_MESSAGE "a" none].foldl
        chatReducer initialState).messageOrder) = ["a", "a"] ∧
    ¬ (([ChatAction.START_ASSISTANT_MESSAGE "a" none,
       ChatAction.START_ASSISTANT_MESSAGE "a" none].foldl
        chatReducer initialState).messageOrder).Nodup := by
  refine ⟨by decide, by decide⟩

/-- C9 (amended): `messageOrder` contains each id at most once for
every action sequence from the initial state whose order-appending
actions (`ADD_USER_MESSAGE`, `START_ASSISTANT_MESSAGE`, and the minted
`SET_ERROR` ids) carry pairwise distinct ids; the reducer itself never
deduplicates, so the restriction to distinct ids is necessary. -/
theorem messageOrder_nodup (acts : List ChatAction)
    (h : (acts.filterMap appendOf).Nodup) :
    ((acts.foldl chatReducer initialState).messageOrder).Nodup := by
  have hsub := foldl_messageOrder_sublist acts initialState []
    (List.nil_sublist [])
  rw [List.nil_append] at hsub
  exact List.Nodup.sublist hsub h

/-- Witness for C9 on a distinct-id action sequence. -/
theorem messageOrder_nodup_witness :
    ((c9Acts.foldl chatReducer initialState).messageOrder).Nodup :=
  messageOrder_nodup c9Acts (by decide)

/-- C10: the `[DONE]` sentinel (any letter casing) and empty data
values are silently consumed: the controller dispatches nothing and the
state — conversation included — is completely unchanged, with no decode
error raised. -/
theorem done_sentinel_no_dispatch (ctrl : Ctrl) (errId : String) (frame : Str)
    (hp : leadsWith ("data: ".toList) frame = true)
    (hd : trimS (frame.drop 5) = [] ∨
      List.map Char.toUpper (trimS (frame.drop 5)) = "[DONE]".toList) :
    processFrame ctrl errId frame = ctrl := by
  unfold processFrame
  rw [if_pos hp]
  dsimp only
  rcases hd with h0 | hup
  · rw [if_pos h0]
  · by_cases h0 : trimS (frame.drop 5) = []
    · rw [if_pos h0]
    · rw [if_neg h0, if_pos hup]

/-- Witness for C10 on a mixed-casing sentinel frame. -/
theorem done_sentinel_no_dispatch_witness :
    processFrame ctrl0 "err" ("data: [DoNe]".toList) = ctrl0 :=
  done_sentinel_no_dispatch ctrl0 "err" ("data: [DoNe]".toList) (by decide)
    (Or.inr (by decide))
